import Mathlib

/-!
Verification of the secure message exchange subsystem of the
WiFi-mapper-and-text-messages repository.

The repository ships a sketch (`app.py`): the UI glue, the `TextMessage`
class, `MessageWidget.display_message` and an empty-bodied
`MessageManager.receive` / `queue_message` are present, while the Codec,
Crypto Engine, Session Manager and Message Store are imported from modules
that are not part of the source tree. Components present in the source are
embedded from the source; the missing components are modelled from the
spec, and each such definition says so in its doc comment.

Numbers are `Nat`; machine words are `Nat` with explicit bounds; bytes are
`Nat` with the bound `< 256`; fallible operations return `Option` or
`Except`.
-/

namespace WifiMesh

/-! ## Codec data model (modelled from the spec, section 3 and 4.3) -/

/-- Modelled from the spec: `CodecError` taxonomy (section 7); the codec's
only failure is `Malformed`. The codec implementation is absent from
`src/` (imported `messaging` module). -/
inductive CodecError where
  | Malformed
  deriving DecidableEq, Repr

/-- Modelled from the spec: the two message variants. `Text` carries a
UTF-8 payload (as its encoded bytes), `Command` carries an opcode plus
argument bytes. -/
inductive MsgBody where
  | text (payload : List Nat)
  | command (opcode : Nat) (arg : List Nat)
  deriving DecidableEq, Repr

/-- Modelled from the spec: a `Message` with common fields `id`,
`timestamp`, `sender` (a fixed-length device id), optional `recipient`
(absent = broadcast) and the tagged variant body. -/
structure Message where
  id : Nat
  timestamp : Nat
  sender : List Nat
  recipient : Option (List Nat)
  body : MsgBody
  deriving DecidableEq, Repr

/-- Length in bytes of a device id on the wire (a fixed-length digest per
the spec). -/
def idLen : Nat := 4

/-- Width in bytes of the fixed-size integer fields on the wire. -/
def intLen : Nat := 8

/-- Is `c` a UTF-8 continuation byte? -/
def utf8Cont (c : Nat) : Bool := 0x80 ≤ c && c ≤ 0xBF

/-- Executable UTF-8 validity check over a byte list, following the
standard table (RFC 3629): rejects overlong forms, surrogates and
code points above U+10FFFF. -/
def utf8Valid : List Nat → Bool
  | [] => true
  | b :: rest =>
    if b ≤ 0x7F then utf8Valid rest
    else if 0xC2 ≤ b && b ≤ 0xDF then
      match rest with
      | c1 :: rest1 => utf8Cont c1 && utf8Valid rest1
      | [] => false
    else if b == 0xE0 then
      match rest with
      | c1 :: c2 :: rest2 =>
        (0xA0 ≤ c1 && c1 ≤ 0xBF) && utf8Cont c2 && utf8Valid rest2
      | _ => false
    else if (0xE1 ≤ b && b ≤ 0xEC) || b == 0xEE || b == 0xEF then
      match rest with
      | c1 :: c2 :: rest2 => utf8Cont c1 && utf8Cont c2 && utf8Valid rest2
      | _ => false
    else if b == 0xED then
      match rest with
      | c1 :: c2 :: rest2 =>
        (0x80 ≤ c1 && c1 ≤ 0x9F) && utf8Cont c2 && utf8Valid rest2
      | _ => false
    else if b == 0xF0 then
      match rest with
      | c1 :: c2 :: c3 :: rest3 =>
        (0x90 ≤ c1 && c1 ≤ 0xBF) && utf8Cont c2 && utf8Cont c3 && utf8Valid rest3
      | _ => false
    else if 0xF1 ≤ b && b ≤ 0xF3 then
      match rest with
      | c1 :: c2 :: c3 :: rest3 =>
        utf8Cont c1 && utf8Cont c2 && utf8Cont c3 && utf8Valid rest3
      | _ => false
    else if b == 0xF4 then
      match rest with
      | c1 :: c2 :: c3 :: rest3 =>
        (0x80 ≤ c1 && c1 ≤ 0x8F) && utf8Cont c2 && utf8Cont c3 && utf8Valid rest3
      | _ => false
    else false

/-- Big-endian encoding of `v` into exactly `n` bytes. -/
def toBE : Nat → Nat → List Nat
  | 0, _ => []
  | n + 1, v => toBE n (v / 256) ++ [v % 256]

/-- Big-endian value of a byte list. -/
def fromBE (bs : List Nat) : Nat := bs.foldl (fun a b => a * 256 + b) 0

/-- All entries of `bs` are bytes. -/
def bytesOk (bs : List Nat) : Bool := bs.all (· < 256)

/-- Modelled from the spec: structural validity of a `Message` — integer
fields fit the wire width, ids have the fixed digest length, payload bytes
are bytes and a Text payload is valid UTF-8. -/
def Message.valid (m : Message) : Bool :=
  decide (m.id < 256 ^ intLen) && decide (m.timestamp < 256 ^ intLen) &&
  (m.sender.length == idLen) && bytesOk m.sender &&
  (match m.recipient with
   | none => true
   | some r => (r.length == idLen) && bytesOk r) &&
  (match m.body with
   | .text p => decide (p.length < 256 ^ intLen) && bytesOk p && utf8Valid p
   | .command op arg =>
     decide (op < 256 ^ intLen) && decide (arg.length < 256 ^ intLen) && bytesOk arg)

/-- Wire encoding of the optional recipient: a flag byte then the id. -/
def encRecipient : Option (List Nat) → List Nat
  | none => [0]
  | some r => 1 :: r

/-- Variant tag byte: 0 for Text, 1 for Command. -/
def bodyTag : MsgBody → Nat
  | .text _ => 0
  | .command _ _ => 1

/-- Wire encoding of the variant-specific fields. -/
def encBodyFields : MsgBody → List Nat
  | .text p => toBE intLen p.length ++ p
  | .command op arg => toBE intLen op ++ (toBE intLen arg.length ++ arg)

/-- Modelled from the spec: deterministic, self-describing encoding — the
variant tag precedes the fields; fixed-width big-endian integers,
fixed-length ids, length-prefixed variable fields. -/
def encode (m : Message) : List Nat :=
  bodyTag m.body ::
    (toBE intLen m.id ++
      (toBE intLen m.timestamp ++
        (m.sender ++ (encRecipient m.recipient ++ encBodyFields m.body))))

/-- Read exactly `n` bytes off the front of the input, requiring each to
be a byte; returns the chunk and the tail. -/
def readN (n : Nat) (bs : List Nat) : Option (List Nat × List Nat) :=
  if n ≤ bs.length && bytesOk (bs.take n) then some (bs.take n, bs.drop n) else none

/-- Read the optional recipient: flag byte 0 = broadcast, 1 = a device id
follows. -/
def readRecipient : List Nat → Option (Option (List Nat) × List Nat)
  | [] => none
  | b :: r =>
    if b = 0 then some (none, r)
    else if b = 1 then (readN idLen r).bind fun dp => some (some dp.1, dp.2)
    else none

/-- Parse the common fields (id, timestamp, sender, recipient), returning
them with the unconsumed tail. -/
def decodeCommon (bs : List Nat) : Option ((Nat × Nat × List Nat × Option (List Nat)) × List Nat) :=
  (readN intLen bs).bind fun idp =>
    (readN intLen idp.2).bind fun tsp =>
      (readN idLen tsp.2).bind fun sdp =>
        (readRecipient sdp.2).bind fun rcp =>
          some ((fromBE idp.1, fromBE tsp.1, sdp.1, rcp.1), rcp.2)

/-- Modelled from the spec: the decoder. Reads the variant tag, the common
fields, then the variant fields; rejects wrong tags, truncated fields,
trailing bytes and invalid UTF-8 in a Text payload. -/
def decodeCore : List Nat → Option Message
  | [] => none
  | tag :: r0 =>
    if tag = 0 then
      (decodeCommon r0).bind fun cm =>
        (readN intLen cm.2).bind fun lenp =>
          (readN (fromBE lenp.1) lenp.2).bind fun payp =>
            if utf8Valid payp.1 && payp.2.isEmpty then
              some ⟨cm.1.1, cm.1.2.1, cm.1.2.2.1, cm.1.2.2.2, .text payp.1⟩
            else none
    else if tag = 1 then
      (decodeCommon r0).bind fun cm =>
        (readN intLen cm.2).bind fun opp =>
          (readN intLen opp.2).bind fun lenp =>
            (readN (fromBE lenp.1) lenp.2).bind fun argp =>
              if argp.2.isEmpty then
                some ⟨cm.1.1, cm.1.2.1, cm.1.2.2.1, cm.1.2.2.2, .command (fromBE opp.1) argp.1⟩
              else none
    else none

/-- Modelled from the spec: `decode`, failing with `CodecError.Malformed`
on structurally invalid input. -/
def decode (bs : List Nat) : Except CodecError Message :=
  match decodeCore bs with
  | some m => .ok m
  | none => .error .Malformed

/-! ## Crypto Engine (modelled from the spec, section 4.4; the `security`
module imported by src/app.py is absent from the source tree) -/

/-- Modelled from the spec: `CryptoError` taxonomy (section 7). -/
inductive CryptoError where
  | AuthenticationFailed
  | ReplayDetected
  deriving DecidableEq, Repr

/-- Modelled from the spec: per-peer session state (section 3):
`send_counter` increments per outgoing message, `recv_high_watermark`
rejects replayed counters. -/
structure PeerSession where
  peer_id : Nat
  shared_secret : Nat
  send_counter : Nat
  recv_high_watermark : Nat
  deriving DecidableEq, Repr

/-- One keystream byte of the stream cipher, derived from the session key
and the per-message nonce counter. -/
def ksByte (key nonce i : Nat) : Nat := (key + nonce * 131 + i * 31) % 256

/-- XOR the byte list with the keystream starting at position `i`.
Applying it twice with the same key and nonce is the identity. -/
def xorKs (key nonce : Nat) : Nat → List Nat → List Nat
  | _, [] => []
  | i, b :: bs => (b ^^^ ksByte key nonce i) :: xorKs key nonce (i + 1) bs

/-- Injective code of a byte list into `Nat` (for the ideal MAC). -/
def listCode : List Nat → Nat
  | [] => 0
  | b :: bs => Nat.pair b (listCode bs) + 1

/-- Modelled from the spec: the authentication tag, an idealised
deterministic MAC over the session key, the nonce counter, the associated
data (sender id and addressing flag) and the ciphertext. Idealised means
collision-free, the standard symbolic model of an unforgeable MAC. -/
def mac (key nonce ad : Nat) (ct : List Nat) : Nat :=
  Nat.pair key (Nat.pair nonce (Nat.pair ad (listCode ct)))

/-- Modelled from the spec: the wire envelope (section 3 and 6). -/
structure Envelope where
  sender_id : Nat
  nonce : Nat
  ciphertext : List Nat
  auth_tag : Nat
  recipient_flag : Nat
  deriving DecidableEq, Repr

/-- Associated data binding the envelope to its addressing. -/
def envAd (sender_id recipient_flag : Nat) : Nat := Nat.pair sender_id recipient_flag

/-- Modelled from the spec: authenticated encryption. Bumps the session's
`send_counter`, builds the nonce from it, encrypts with the session key
and tags ciphertext plus associated data. -/
def encrypt (s : PeerSession) (sender_id recipient_flag : Nat) (pt : List Nat) :
    Envelope × PeerSession :=
  (⟨sender_id, s.send_counter + 1,
    xorKs s.shared_secret (s.send_counter + 1) 0 pt,
    mac s.shared_secret (s.send_counter + 1) (envAd sender_id recipient_flag)
      (xorKs s.shared_secret (s.send_counter + 1) 0 pt),
    recipient_flag⟩,
   { s with send_counter := s.send_counter + 1 })

/-- Modelled from the spec: authenticated decryption. Fails with
`AuthenticationFailed` when the tag does not verify, with `ReplayDetected`
when the embedded counter does not exceed `recv_high_watermark`; on
success returns the plaintext and the session with the watermark
advanced. -/
def decrypt (s : PeerSession) (e : Envelope) : Except CryptoError (List Nat × PeerSession) :=
  if e.auth_tag ≠ mac s.shared_secret e.nonce (envAd e.sender_id e.recipient_flag) e.ciphertext
  then .error .AuthenticationFailed
  else if e.nonce ≤ s.recv_high_watermark then .error .ReplayDetected
  else .ok (xorKs s.shared_secret e.nonce 0 e.ciphertext,
            { s with recv_high_watermark := e.nonce })

/-- Flip bit `i` of a byte list: bit `i % 8` of byte `i / 8`. -/
def flipBit (bs : List Nat) (i : Nat) : List Nat :=
  bs.set (i / 8) (bs.getD (i / 8) 0 ^^^ 2 ^ (i % 8))

/-! ## Session Manager (modelled from the spec, section 4.2) -/

/-- Modulus of the Diffie-Hellman group (a fixed public prime). -/
def dhMod : Nat := 2147483647

/-- Generator of the Diffie-Hellman group. -/
def dhGen : Nat := 7

/-- Public key of a private exponent. -/
def pubKey (priv : Nat) : Nat := dhGen ^ priv % dhMod

/-- Modelled from the spec: ECDH-style agreement via the Identity and Key
Store — raise the peer's public key to the own private exponent. -/
def agree (priv peerPub : Nat) : Nat := peerPub ^ priv % dhMod

/-- Modelled from the spec: key-derivation function seeded with both
public keys in deterministic order plus the raw shared secret. -/
def kdf (pkLow pkHigh secret : Nat) : Nat := Nat.pair pkLow (Nat.pair pkHigh secret)

/-- Modelled from the spec: derive the symmetric session key, ordering the
two public keys deterministically (lexicographically, here numerically) so
both peers derive the identical key independent of who initiated. -/
def deriveSessionKey (priv peerPub : Nat) : Nat :=
  let myPub := pubKey priv
  kdf (min myPub peerPub) (max myPub peerPub) (agree priv peerPub)

/-- Modelled from the spec: `get_or_create_session` — a fresh session for
a peer, with the derived symmetric key and zeroed counters. -/
def get_or_create_session (peer_id priv peerPub : Nat) : PeerSession :=
  ⟨peer_id, deriveSessionKey priv peerPub, 0, 0⟩

/-! ## TextMessage and the UI widget (embedded from src/app.py) -/

/-- Embedded from src/app.py lines 114-119 (`messaging/message.py`
section): a text message with a creation timestamp (`time.time()`,
modelled in whole seconds), sender, content and optional recipient
(`None` = broadcast). -/
structure TextMessage where
  timestamp : Nat
  sender : String
  content : String
  recipient : Option String
  deriving DecidableEq, Repr

/-- Embedded from src/app.py line 115-119: the `TextMessage` constructor,
with the clock passed explicitly. -/
def mkTextMessage (now : Nat) (sender content : String) (recipient : Option String) :
    TextMessage :=
  { timestamp := now, sender := sender, content := content, recipient := recipient }

/-- Modelled from the spec: `CommandMessage` (imported in src/app.py from
the absent `messaging` module) — an opcode plus argument bytes. -/
structure CommandMessage where
  opcode : Nat
  arg : List Nat
  deriving DecidableEq, Repr

/-- Python truthiness of an optional string: `None` and the empty string
are falsy, every other string is truthy. -/
def strOptTruthy : Option String → Bool
  | none => false
  | some s => !(s == "")

/-- Embedded from src/app.py line 156: the local variable holding the
display marker, `"[Direct] " if message.recipient else "[Broadcast] "`,
which branches on Python truthiness of `recipient`. -/
def displayMarker (m : TextMessage) : String :=
  if strOptTruthy m.recipient then "[Direct] " else "[Broadcast] "

/-- Embedded from src/app.py lines 154-157:
`MessageWidget.display_message` appends marker, sender and content. -/
def display_message (m : TextMessage) : String :=
  displayMarker m ++ m.sender ++ ": " ++ m.content

/-! ## Message Store (modelled from the spec, sections 3 and 4.5; only the
constructor call `MessageStore(retention_days)` appears in src/app.py
line 124) -/

/-- Modelled from the spec: a conversation key is a peer id or the
reserved broadcast key. -/
inductive ConvKey where
  | peer (id : String)
  | broadcast
  deriving DecidableEq, Repr

/-- Modelled from the spec: message direction in the store. -/
inductive Direction where
  | inbound
  | outbound
  deriving DecidableEq, Repr

/-- Modelled from the spec: a stored message — a message plus direction
and conversation key. -/
structure StoredMessage where
  msg : TextMessage
  direction : Direction
  conversation_key : ConvKey
  deriving DecidableEq, Repr

/-- Modelled from the spec: the conversation key under which a message is
filed — the reserved broadcast key when it has no recipient, otherwise
the peer: the recipient for an outbound message, the sender for an
inbound one. -/
def convKeyFor (m : TextMessage) (d : Direction) : ConvKey :=
  match m.recipient with
  | none => ConvKey.broadcast
  | some x =>
    match d with
    | .outbound => ConvKey.peer x
    | .inbound => ConvKey.peer m.sender

/-- Modelled from the spec: build the stored form of a message. -/
def mkStored (m : TextMessage) (d : Direction) : StoredMessage :=
  ⟨m, d, convKeyFor m d⟩

/-- Modelled from the spec: the append-only store with the retention
horizon, constructed as `MessageStore(retention_days)` in src/app.py. -/
structure MessageStore where
  retention_days : Nat
  entries : List StoredMessage
  deriving DecidableEq, Repr

/-- Seconds per day; message timestamps are `time.time()` seconds. -/
def secondsPerDay : Nat := 86400

/-- The retention horizon in seconds. -/
def MessageStore.horizon (s : MessageStore) : Nat := s.retention_days * secondsPerDay

/-- Modelled from the spec: `append` adds a stored message at the end of
the log (insertion order = conversation order). -/
def MessageStore.append (s : MessageStore) (e : StoredMessage) : MessageStore :=
  { s with entries := s.entries ++ [e] }

/-- Modelled from the spec: `prune(now)` removes every entry older than
the retention horizon, keeping exactly those whose age at `now` does not
exceed it. -/
def MessageStore.prune (s : MessageStore) (now : Nat) : MessageStore :=
  { s with entries := s.entries.filter (fun e => decide (now ≤ e.msg.timestamp + s.horizon)) }

/-- Modelled from the spec: `conversation(peer)` — the entries filed under
the peer plus every broadcast entry, in insertion order. -/
def MessageStore.conversation (s : MessageStore) (p : String) : List StoredMessage :=
  s.entries.filter
    (fun e => decide (e.conversation_key = ConvKey.peer p) ||
              decide (e.conversation_key = ConvKey.broadcast))

/-- Modelled from the spec: the dedicated broadcast view. -/
def MessageStore.broadcastView (s : MessageStore) : List StoredMessage :=
  s.entries.filter (fun e => decide (e.conversation_key = ConvKey.broadcast))

/-! ## MessageManager send side (embedded from src/app.py lines 121-132) -/

/-- Embedded from src/app.py lines 121-124: the state
`MessageManager.__init__` sets up — the message store built from
`retention_days`. The constructor's parameters are only the crypto
manager and `retention_days`; `AppConfig.max_concurrent_messages` is
never passed to the manager. -/
structure MessageManager where
  messages : MessageStore
  deriving DecidableEq, Repr

/-- Embedded from src/app.py lines 26-29 and 121-124: constructing the
manager as `WiFiMeshApp.__init__` does, from `retention_days` alone. -/
def MessageManager.init (retention_days : Nat) : MessageManager :=
  ⟨⟨retention_days, []⟩⟩

/-- Embedded from src/app.py lines 130-132: the body of `queue_message`
is a docstring and a comment only, so the call falls off the end,
returns `None`, changes no state and sends nothing — the message is
discarded no matter how many messages are in flight. -/
def MessageManager.queue_message (mgr : MessageManager) (message : TextMessage) :
    MessageManager :=
  mgr

/-! ## MessageManager.receive and the message loop (embedded from
src/app.py) -/

/-- The value `MessageManager.receive` can produce, as seen by the
Python `isinstance` dispatch in the message loop: `None`, a
`TextMessage` or a `CommandMessage`. -/
inductive PyMsg where
  | noneVal
  | text (m : TextMessage)
  | command (c : CommandMessage)
  deriving DecidableEq, Repr

/-- Embedded from src/app.py lines 126-128: the body of
`MessageManager.receive` is a docstring and a comment only, so every call
falls off the end and returns `None`. -/
def MessageManager.receive : PyMsg := PyMsg.noneVal

/-- The observable effects of one message-loop iteration: what the widget
displayed and which commands were handled. -/
structure LoopState where
  displayed : List String
  handled : List CommandMessage
  deriving DecidableEq, Repr

/-- Embedded from src/app.py lines 75-82: one iteration of
`_message_loop` — `msg = await receive()`, then `isinstance` dispatch to
`display_message` or `_handle_command`. -/
def messageLoopIter (ui : LoopState) : LoopState :=
  match MessageManager.receive with
  | PyMsg.text m => { ui with displayed := ui.displayed ++ [display_message m] }
  | PyMsg.command c => { ui with handled := ui.handled ++ [c] }
  | PyMsg.noneVal => ui

/-! ## Theorems -/

/-- ECDH agreement is symmetric: raising the peer's public key to the own
exponent gives the same group element on both sides. -/
theorem agree_comm (a b : Nat) : agree a (pubKey b) = agree b (pubKey a) := by
  unfold agree pubKey
  rw [← Nat.pow_mod, ← Nat.pow_mod, ← pow_mul, ← pow_mul, Nat.mul_comm]

/-- Claim C4: for every pair of device identities, each calling
`get_or_create_session` with the other's public key derives the identical
symmetric session key, because the key-derivation function is seeded with
both public keys in a deterministic order independent of who initiated. -/
theorem session_key_agreement_symmetric (pidA pidB a b : Nat) :
    (get_or_create_session pidA a (pubKey b)).shared_secret =
      (get_or_create_session pidB b (pubKey a)).shared_secret := by
  show deriveSessionKey a (pubKey b) = deriveSessionKey b (pubKey a)
  unfold deriveSessionKey
  simp only [agree_comm a b, min_comm (pubKey a) (pubKey b), max_comm (pubKey a) (pubKey b)]

/-- Claim C9: `MessageManager.receive` as written has an empty body, so
every call returns `None`; hence in `_message_loop` neither `isinstance`
branch is ever taken and an iteration changes nothing — no incoming
message is ever displayed or handled. -/
theorem receive_returns_none :
    MessageManager.receive = PyMsg.noneVal ∧ ∀ ui : LoopState, messageLoopIter ui = ui :=
  ⟨rfl, fun _ => rfl⟩

/-- Claim C10: `display_message` uses the marker `"[Direct] "` exactly
when the recipient is truthy in Python's sense and `"[Broadcast] "`
otherwise; in particular a message whose recipient is the empty string is
displayed as broadcast even though its recipient is not `None`. -/
theorem display_marker_truthiness :
    (∀ m : TextMessage, (displayMarker m = "[Direct] ") ↔ strOptTruthy m.recipient = true) ∧
    (∀ m : TextMessage, display_message m = displayMarker m ++ m.sender ++ ": " ++ m.content) ∧
    (∀ now s c, display_message (mkTextMessage now s c (some "")) =
      "[Broadcast] " ++ s ++ ": " ++ c) ∧
    some "" ≠ (none : Option String) := by
  refine ⟨fun m => ?_, fun m => rfl, fun now s c => rfl, by simp⟩
  unfold displayMarker
  cases h : strOptTruthy m.recipient <;> simp [h]

/-- Claim C10 witness: a concrete message with recipient `some ""` is
rendered with the broadcast marker. -/
theorem display_marker_truthiness_witness :
    display_message (mkTextMessage 5 "A1" "hi" (some "")) = "[Broadcast] " ++ "A1" ++ ": " ++ "hi" :=
  display_marker_truthiness.2.2.1 5 "A1" "hi"

/-- Claim C5: after a pruning pass no remaining message's age exceeds the
retention horizon; a message appended at time `t` is still served by
`conversation` by a prune-and-query before `t` plus the horizon, is gone
from the store after a prune past `t` plus the horizon, and pruning is
idempotent. -/
theorem retention_pruning :
    (∀ (s : MessageStore) (now : Nat), ∀ e ∈ (s.prune now).entries,
        now ≤ e.msg.timestamp + s.horizon) ∧
    (∀ (s : MessageStore) (g : StoredMessage) (now : Nat) (p : String),
        (g.conversation_key = ConvKey.peer p ∨ g.conversation_key = ConvKey.broadcast) →
        now ≤ g.msg.timestamp + s.horizon →
        g ∈ ((s.append g).prune now).conversation p) ∧
    (∀ (s : MessageStore) (g : StoredMessage) (now : Nat),
        g.msg.timestamp + s.horizon < now →
        g ∉ ((s.append g).prune now).entries) ∧
    (∀ (s : MessageStore) (now : Nat), (s.prune now).prune now = s.prune now) := by
  refine ⟨fun s now e he => ?_, fun s g now p hk ht => ?_, fun s g now ht => ?_, fun s now => ?_⟩
  · simp only [MessageStore.prune, List.mem_filter, decide_eq_true_eq] at he
    exact he.2
  · simp only [MessageStore.conversation, MessageStore.prune, MessageStore.append,
      MessageStore.horizon, List.mem_filter, List.mem_append, List.mem_singleton,
      decide_eq_true_eq, Bool.or_eq_true] at *
    exact ⟨⟨Or.inr trivial, ht⟩, hk⟩
  · simp only [MessageStore.prune, MessageStore.append, MessageStore.horizon,
      List.mem_filter, decide_eq_true_eq] at *
    intro hmem
    omega
  · simp only [MessageStore.prune, MessageStore.horizon, List.filter_filter]
    simp

/-- Claim C6: a stored broadcast message (recipient `None`) appears in
every peer's conversation view and in the dedicated broadcast view. A
direct message to peer `X` is, for either direction, never filed under
the broadcast key: stored outbound (on the sender's device) it appears in
the view of `X` and in no other peer's view nor the broadcast view;
stored inbound (on `X`'s device) it appears in the sender's view and in
no other peer's view nor the broadcast view. -/
theorem addressing_views :
    (∀ (s : MessageStore) (m : TextMessage) (d : Direction) (p : String),
        m.recipient = none →
        mkStored m d ∈ ((s.append (mkStored m d)).conversation p) ∧
        mkStored m d ∈ (s.append (mkStored m d)).broadcastView) ∧
    (∀ (s : MessageStore) (m : TextMessage) (x : String),
        m.recipient = some x →
        mkStored m Direction.outbound ∈
          ((s.append (mkStored m Direction.outbound)).conversation x)) ∧
    (∀ (s : MessageStore) (m : TextMessage) (x y : String),
        m.recipient = some x → y ≠ x →
        mkStored m Direction.outbound ∉
          ((s.append (mkStored m Direction.outbound)).conversation y) ∧
        mkStored m Direction.outbound ∉
          (s.append (mkStored m Direction.outbound)).broadcastView) ∧
    (∀ (s : MessageStore) (m : TextMessage) (x : String),
        m.recipient = some x →
        mkStored m Direction.inbound ∈
          ((s.append (mkStored m Direction.inbound)).conversation m.sender)) ∧
    (∀ (s : MessageStore) (m : TextMessage) (x y : String),
        m.recipient = some x → y ≠ m.sender →
        mkStored m Direction.inbound ∉
          ((s.append (mkStored m Direction.inbound)).conversation y) ∧
        mkStored m Direction.inbound ∉
          (s.append (mkStored m Direction.inbound)).broadcastView) ∧
    (∀ (m : TextMessage) (d : Direction) (x : String),
        m.recipient = some x → convKeyFor m d ≠ ConvKey.broadcast) := by
  refine ⟨fun s m d p hrec => ?_, fun s m x hrec => ?_, fun s m x y hrec hxy => ?_,
    fun s m x hrec => ?_, fun s m x y hrec hxy => ?_, fun m d x hrec => ?_⟩
  · constructor <;>
      simp [MessageStore.conversation, MessageStore.broadcastView, MessageStore.append,
        List.mem_filter, mkStored, convKeyFor, hrec]
  · simp [MessageStore.conversation, MessageStore.append, List.mem_filter, mkStored,
      convKeyFor, hrec]
  · constructor <;>
      simp [MessageStore.conversation, MessageStore.broadcastView, MessageStore.append,
        List.mem_filter, mkStored, convKeyFor, hrec, hxy, Ne.symm hxy]
  · simp [MessageStore.conversation, MessageStore.append, List.mem_filter, mkStored,
      convKeyFor, hrec]
  · constructor <;>
      simp [MessageStore.conversation, MessageStore.broadcastView, MessageStore.append,
        List.mem_filter, mkStored, convKeyFor, hrec, hxy, Ne.symm hxy]
  · cases d <;> simp [convKeyFor, hrec]

/-- Claim C5 witness: a concrete message appended at time 100 to a store
with a one-day retention is served by a conversation query after a prune
at time 50000, and is gone after a prune at time 90000. -/
theorem retention_pruning_witness :
    (mkStored (mkTextMessage 100 "A1" "hi" (some "B1")) Direction.outbound ∈
      ((MessageStore.mk 1 []).append
          (mkStored (mkTextMessage 100 "A1" "hi" (some "B1")) Direction.outbound)
        |>.prune 50000).conversation "B1") ∧
    (mkStored (mkTextMessage 100 "A1" "hi" (some "B1")) Direction.outbound ∉
      ((MessageStore.mk 1 []).append
          (mkStored (mkTextMessage 100 "A1" "hi" (some "B1")) Direction.outbound)
        |>.prune 90000).entries) :=
  ⟨retention_pruning.2.1 (MessageStore.mk 1 [])
      (mkStored (mkTextMessage 100 "A1" "hi" (some "B1")) Direction.outbound) 50000 "B1"
      (Or.inl rfl) (by decide),
   retention_pruning.2.2.1 (MessageStore.mk 1 [])
      (mkStored (mkTextMessage 100 "A1" "hi" (some "B1")) Direction.outbound) 90000
      (by decide)⟩

/-- Claim C6 witness: a concrete broadcast message appears in peer `P2`'s
view; a concrete outbound direct message to `B1` is absent from `P2`'s
view; a concrete inbound direct message from `B1` appears in `B1`'s view
and is absent from `P2`'s view. -/
theorem addressing_views_witness :
    (mkStored (mkTextMessage 7 "A1" "hello" none) Direction.outbound ∈
      ((MessageStore.mk 7 []).append
          (mkStored (mkTextMessage 7 "A1" "hello" none) Direction.outbound)).conversation "P2") ∧
    (mkStored (mkTextMessage 7 "A1" "hello" (some "B1")) Direction.outbound ∉
      ((MessageStore.mk 7 []).append
          (mkStored (mkTextMessage 7 "A1" "hello" (some "B1")) Direction.outbound)).conversation
        "P2") ∧
    (mkStored (mkTextMessage 9 "B1" "hey" (some "A1")) Direction.inbound ∈
      ((MessageStore.mk 7 []).append
          (mkStored (mkTextMessage 9 "B1" "hey" (some "A1")) Direction.inbound)).conversation
        "B1") ∧
    (mkStored (mkTextMessage 9 "B1" "hey" (some "A1")) Direction.inbound ∉
      ((MessageStore.mk 7 []).append
          (mkStored (mkTextMessage 9 "B1" "hey" (some "A1")) Direction.inbound)).conversation
        "P2") :=
  ⟨(addressing_views.1 (MessageStore.mk 7 []) (mkTextMessage 7 "A1" "hello" none)
      Direction.outbound "P2" rfl).1,
   (addressing_views.2.2.1 (MessageStore.mk 7 []) (mkTextMessage 7 "A1" "hello" (some "B1"))
      "B1" "P2" rfl (by decide)).1,
   addressing_views.2.2.2.1 (MessageStore.mk 7 []) (mkTextMessage 9 "B1" "hey" (some "A1"))
      "A1" rfl,
   (addressing_views.2.2.2.2.1 (MessageStore.mk 7 []) (mkTextMessage 9 "B1" "hey" (some "A1"))
      "A1" "P2" rfl (by decide)).1⟩

/-- Claim C7: the spec requires a send beyond `max_concurrent_messages`
to block until an in-flight slot frees and forbids silent drops, but the
code has no such mechanism: `queue_message` has an empty body, so every
call returns immediately, changes nothing and discards its message, and
`AppConfig.max_concurrent_messages` is never passed to the manager. This
theorem evaluates that code: queueing leaves the manager unchanged and
stores nothing, so no send ever blocks and every outgoing message is
silently dropped. -/
theorem queue_message_drops :
    ∀ (mgr : MessageManager) (m : TextMessage),
      MessageManager.queue_message mgr m = mgr ∧
      (MessageManager.queue_message mgr m).messages.entries = mgr.messages.entries :=
  fun _ _ => ⟨rfl, rfl⟩

/-- Claim C8: messages are immutable values and no operation rewrites
them: pruning and the conversation and broadcast views only select
already-stored entries unchanged, append only adjoins the new entry to
the unchanged log, queueing (an empty-bodied no-op in the code) changes
no stored message, and delivery (`receive` returns `None`) changes
nothing. -/
theorem message_immutability :
    (∀ (s : MessageStore) (now : Nat) (e : StoredMessage),
        e ∈ (s.prune now).entries → e ∈ s.entries) ∧
    (∀ (s : MessageStore) (p : String) (e : StoredMessage),
        e ∈ s.conversation p → e ∈ s.entries) ∧
    (∀ (s : MessageStore) (e : StoredMessage), e ∈ s.broadcastView → e ∈ s.entries) ∧
    (∀ (s : MessageStore) (e : StoredMessage), (s.append e).entries = s.entries ++ [e]) ∧
    (∀ (mgr : MessageManager) (m : TextMessage),
        (MessageManager.queue_message mgr m).messages = mgr.messages) ∧
    (∀ ui : LoopState, messageLoopIter ui = ui) :=
  ⟨fun _ _ _ he => List.mem_of_mem_filter he,
   fun _ _ _ he => List.mem_of_mem_filter he,
   fun _ _ he => List.mem_of_mem_filter he,
   fun _ _ => rfl, fun _ _ => rfl, fun _ => rfl⟩

/-- Claim C8 witness: in a concrete store, a pruned entry and a
conversation entry both come from the stored log. -/
theorem message_immutability_witness :
    (mkStored (mkTextMessage 3 "A1" "hi" none) Direction.inbound ∈
      ((MessageStore.mk 2 [mkStored (mkTextMessage 3 "A1" "hi" none) Direction.inbound]).prune
          10).entries) ∧
    (mkStored (mkTextMessage 3 "A1" "hi" none) Direction.inbound ∈
      (MessageStore.mk 2 [mkStored (mkTextMessage 3 "A1" "hi" none) Direction.inbound]).entries) :=
  ⟨by decide,
    message_immutability.1
      (MessageStore.mk 2 [mkStored (mkTextMessage 3 "A1" "hi" none) Direction.inbound]) 10
      (mkStored (mkTextMessage 3 "A1" "hi" none) Direction.inbound) (by decide)⟩

/-- Decrypting a stream-cipher output with the same key and nonce gives
back the plaintext: XOR with the keystream is an involution. -/
theorem xorKs_xorKs (key nonce : Nat) : ∀ (i : Nat) (bs : List Nat),
    xorKs key nonce i (xorKs key nonce i bs) = bs := by
  intro i bs
  induction bs generalizing i with
  | nil => rfl
  | cons b tl ih => simp [xorKs, Nat.xor_assoc, Nat.xor_self, Nat.xor_zero, ih]

/-- The byte-list code used by the ideal MAC is injective. -/
theorem listCode_inj : ∀ {bs1 bs2 : List Nat}, listCode bs1 = listCode bs2 → bs1 = bs2 := by
  intro bs1
  induction bs1 with
  | nil =>
    intro bs2 h
    cases bs2 with
    | nil => rfl
    | cons b tl => simp [listCode] at h
  | cons b tl ih =>
    intro bs2 h
    cases bs2 with
    | nil => simp [listCode] at h
    | cons b2 tl2 =>
      simp only [listCode, Nat.add_right_cancel_iff] at h
      obtain ⟨hb, hc⟩ := Nat.pair_eq_pair.mp h
      rw [hb, ih hc]

/-- The ideal MAC is collision-free: equal tags force equal key, nonce,
associated data and ciphertext. -/
theorem mac_inj {k1 n1 a1 k2 n2 a2 : Nat} {ct1 ct2 : List Nat}
    (h : mac k1 n1 a1 ct1 = mac k2 n2 a2 ct2) :
    k1 = k2 ∧ n1 = n2 ∧ a1 = a2 ∧ ct1 = ct2 := by
  unfold mac at h
  obtain ⟨hk, h⟩ := Nat.pair_eq_pair.mp h
  obtain ⟨hn, h⟩ := Nat.pair_eq_pair.mp h
  obtain ⟨ha, h⟩ := Nat.pair_eq_pair.mp h
  exact ⟨hk, hn, ha, listCode_inj h⟩

/-- Flipping a bit changes the number. -/
theorem xor_two_pow_ne (x j : Nat) : x ^^^ 2 ^ j ≠ x := by
  intro h
  have h1 : x ^^^ (x ^^^ 2 ^ j) = x ^^^ x := congrArg (x ^^^ ·) h
  rw [← Nat.xor_assoc, Nat.xor_self, Nat.zero_xor] at h1
  have := Nat.two_pow_pos j
  omega

/-- Flipping a bit inside the byte list changes the list. -/
theorem flipBit_ne (bs : List Nat) (i : Nat) (h : i < 8 * bs.length) : flipBit bs i ≠ bs := by
  intro he
  have hj : i / 8 < bs.length := by omega
  have hg : (flipBit bs i).getD (i / 8) 0 = bs.getD (i / 8) 0 := by rw [he]
  have hv : (flipBit bs i).getD (i / 8) 0 = bs.getD (i / 8) 0 ^^^ 2 ^ (i % 8) := by
    simp only [flipBit]
    rw [List.getD_eq_getElem _ 0 (by simpa using hj)]
    rw [List.getElem_set_self (by simpa using hj)]
  rw [hv] at hg
  exact xor_two_pow_ne (bs.getD (i / 8) 0) (i % 8) hg

/-- Claim C2: for a fixed session, flipping any single bit of a produced
envelope's ciphertext or auth tag makes `decrypt` fail with
`AuthenticationFailed`; and whenever `decrypt` does succeed on a produced
envelope it returns exactly the plaintext that was encrypted. -/
theorem envelope_tamper_detected :
    (∀ (s r : PeerSession) (sid rf : Nat) (pt : List Nat) (i : Nat),
        r.shared_secret = s.shared_secret →
        i < 8 * (encrypt s sid rf pt).1.ciphertext.length →
        decrypt r { (encrypt s sid rf pt).1 with
            ciphertext := flipBit (encrypt s sid rf pt).1.ciphertext i } =
          .error CryptoError.AuthenticationFailed) ∧
    (∀ (s r : PeerSession) (sid rf : Nat) (pt : List Nat) (j : Nat),
        r.shared_secret = s.shared_secret →
        decrypt r { (encrypt s sid rf pt).1 with
            auth_tag := (encrypt s sid rf pt).1.auth_tag ^^^ 2 ^ j } =
          .error CryptoError.AuthenticationFailed) ∧
    (∀ (s r r' : PeerSession) (sid rf : Nat) (pt pt' : List Nat),
        r.shared_secret = s.shared_secret →
        decrypt r (encrypt s sid rf pt).1 = .ok (pt', r') →
        pt' = pt) := by
  refine ⟨fun s r sid rf pt i hr hi => ?_, fun s r sid rf pt j hr => ?_,
    fun s r r' sid rf pt pt' hr h => ?_⟩
  · simp only [encrypt] at hi ⊢
    simp only [decrypt, hr]
    rw [if_pos]
    intro hmac
    rcases mac_inj hmac with ⟨-, -, -, hct⟩
    exact flipBit_ne _ i hi hct.symm
  · simp only [encrypt, decrypt, hr]
    rw [if_pos]
    exact xor_two_pow_ne _ j
  · simp only [encrypt, decrypt, hr, ne_eq, not_true_eq_false, if_false] at h
    split at h
    · exact absurd h (by simp)
    · simp only [Except.ok.injEq, Prod.mk.injEq] at h
      rw [← h.1, xorKs_xorKs]

/-- Claim C2 witness: on a concrete session and plaintext, flipping bit 3
of the ciphertext makes decryption fail with `AuthenticationFailed`. -/
theorem envelope_tamper_detected_witness :
    3 < 8 * (encrypt (PeerSession.mk 2 42 0 0) 5 0 [104, 105]).1.ciphertext.length ∧
    decrypt (PeerSession.mk 2 42 0 0)
      { (encrypt (PeerSession.mk 2 42 0 0) 5 0 [104, 105]).1 with
        ciphertext := flipBit (encrypt (PeerSession.mk 2 42 0 0) 5 0 [104, 105]).1.ciphertext 3 } =
      .error CryptoError.AuthenticationFailed :=
  ⟨by decide,
    envelope_tamper_detected.1 (PeerSession.mk 2 42 0 0) (PeerSession.mk 2 42 0 0)
      5 0 [104, 105] 3 rfl (by decide)⟩

/-- Claim C3: an envelope that `decrypt` has accepted is rejected with
`ReplayDetected` when submitted again, because the accepting session
advanced its high watermark to the envelope's counter; in general any
authentic envelope whose counter does not exceed `recv_high_watermark` is
rejected with `ReplayDetected`. -/
theorem replay_rejected :
    (∀ (r : PeerSession) (e : Envelope) (pt : List Nat) (r' : PeerSession),
        decrypt r e = .ok (pt, r') → decrypt r' e = .error CryptoError.ReplayDetected) ∧
    (∀ (r : PeerSession) (e : Envelope),
        e.auth_tag =
          mac r.shared_secret e.nonce (envAd e.sender_id e.recipient_flag) e.ciphertext →
        e.nonce ≤ r.recv_high_watermark →
        decrypt r e = .error CryptoError.ReplayDetected) := by
  constructor
  · intro r e pt r' h
    unfold decrypt at h
    split at h
    · exact absurd h (by simp)
    · split at h
      · exact absurd h (by simp)
      · simp only [Except.ok.injEq, Prod.mk.injEq] at h
        rw [← h.2]
        unfold decrypt
        rw [if_neg (by simp_all), if_pos (by simp)]
  · intro r e htag hle
    unfold decrypt
    rw [if_neg (by simp [htag]), if_pos hle]

/-- Claim C3 witness: a concrete envelope decrypts once and is rejected
as a replay the second time. -/
theorem replay_rejected_witness :
    decrypt (PeerSession.mk 2 42 0 0) (encrypt (PeerSession.mk 2 42 0 0) 5 0 [104, 105]).1 =
      .ok ([104, 105], PeerSession.mk 2 42 0 1) ∧
    decrypt (PeerSession.mk 2 42 0 1) (encrypt (PeerSession.mk 2 42 0 0) 5 0 [104, 105]).1 =
      .error CryptoError.ReplayDetected := by
  have h1 : decrypt (PeerSession.mk 2 42 0 0) (encrypt (PeerSession.mk 2 42 0 0) 5 0 [104, 105]).1 =
      .ok ([104, 105], PeerSession.mk 2 42 0 1) := by rfl
  exact ⟨h1, replay_rejected.1 (PeerSession.mk 2 42 0 0) _ [104, 105] (PeerSession.mk 2 42 0 1) h1⟩

/-- A fixed-width big-endian chunk has exactly its width. -/
theorem length_toBE (n v : Nat) : (toBE n v).length = n := by
  induction n generalizing v with
  | zero => rfl
  | succ n ih => simp [toBE, ih]

/-- Every entry of a big-endian chunk is a byte. -/
theorem mem_toBE_lt (n v : Nat) : ∀ x ∈ toBE n v, x < 256 := by
  induction n generalizing v with
  | zero => simp [toBE]
  | succ n ih =>
    intro x hx
    simp only [toBE, List.mem_append, List.mem_singleton] at hx
    rcases hx with hx | rfl
    · exact ih (v / 256) x hx
    · exact Nat.mod_lt v (by norm_num)

/-- Appending a final byte multiplies the big-endian value by 256 and
adds the byte. -/
theorem fromBE_snoc (xs : List Nat) (b : Nat) : fromBE (xs ++ [b]) = fromBE xs * 256 + b := by
  simp [fromBE, List.foldl_append]

/-- Decoding the fixed-width encoding of a value below the width bound
recovers the value. -/
theorem fromBE_toBE {n v : Nat} (h : v < 256 ^ n) : fromBE (toBE n v) = v := by
  induction n generalizing v with
  | zero =>
    have : v = 0 := by simpa using h
    simp [this, toBE, fromBE]
  | succ n ih =>
    have hdiv : v / 256 < 256 ^ n := by
      rw [pow_succ] at h
      omega
    rw [toBE, fromBE_snoc, ih hdiv]
    omega

/-- Encoding the value of a byte list at its own length gives the list
back. -/
theorem toBE_fromBE_len (bs : List Nat) (hb : ∀ x ∈ bs, x < 256) :
    toBE bs.length (fromBE bs) = bs := by
  induction bs using List.reverseRecOn with
  | nil => rfl
  | append_singleton xs b ih =>
    have hblt : b < 256 := hb b (by simp)
    have hxs : ∀ x ∈ xs, x < 256 := fun x hx => hb x (by simp [hx])
    rw [List.length_append, List.length_singleton, fromBE_snoc, toBE]
    have hq : (fromBE xs * 256 + b) / 256 = fromBE xs := by omega
    have hr : (fromBE xs * 256 + b) % 256 = b := by omega
    rw [hq, hr, ih hxs]

/-- Encoding the value of an `n`-byte list at width `n` gives the list
back. -/
theorem toBE_fromBE {n : Nat} {bs : List Nat} (hl : bs.length = n) (hb : ∀ x ∈ bs, x < 256) :
    toBE n (fromBE bs) = bs := hl ▸ toBE_fromBE_len bs hb

/-- The value of an `n`-byte list is below `256 ^ n`. -/
theorem fromBE_lt (bs : List Nat) (hb : ∀ x ∈ bs, x < 256) : fromBE bs < 256 ^ bs.length := by
  induction bs using List.reverseRecOn with
  | nil => simp [fromBE]
  | append_singleton xs b ih =>
    have hblt : b < 256 := hb b (by simp)
    have hxs : fromBE xs < 256 ^ xs.length := ih fun x hx => hb x (by simp [hx])
    rw [fromBE_snoc, List.length_append, List.length_singleton, pow_succ]
    omega

/-- Reading `n` bytes off a chunk of length `n` followed by a tail yields
the chunk and the tail. -/
theorem readN_encode (c rest : List Nat) (n : Nat) (hl : c.length = n)
    (hb : ∀ x ∈ c, x < 256) : readN n (c ++ rest) = some (c, rest) := by
  unfold readN
  rw [List.take_left' hl, List.drop_left' hl]
  have h1 : n ≤ c.length + rest.length := by omega
  have h2 : bytesOk c = true := by
    simp only [bytesOk, List.all_eq_true, decide_eq_true_eq]
    exact hb
  simp [h1, h2]

/-- Reading `n` bytes off a list of exactly `n` bytes consumes it all. -/
theorem readN_exact (c : List Nat) (n : Nat) (hl : c.length = n) (hb : ∀ x ∈ c, x < 256) :
    readN n c = some (c, []) := by
  have := readN_encode c [] n hl hb
  simpa using this

/-- An accepted `readN` splits the input into an `n`-byte chunk and the
tail. -/
theorem readN_spec {n : Nat} {bs c r : List Nat} (h : readN n bs = some (c, r)) :
    bs = c ++ r ∧ c.length = n ∧ ∀ x ∈ c, x < 256 := by
  unfold readN at h
  split at h
  · rename_i hcond
    simp only [Bool.and_eq_true, decide_eq_true_eq, bytesOk, List.all_eq_true] at hcond
    simp only [Option.some.injEq, Prod.mk.injEq] at h
    obtain ⟨hc, hr⟩ := h
    subst hc; subst hr
    refine ⟨(List.take_append_drop n bs).symm, ?_, ?_⟩
    · simp [List.length_take]
      omega
    · intro x hx
      simpa using hcond.2 x hx
  · exact absurd h (by simp)

/-- Reading the encoded recipient off the wire yields the recipient and
the tail. -/
theorem readRecipient_encode (rc : Option (List Nat)) (rest : List Nat)
    (hrc : ∀ d, rc = some d → d.length = idLen ∧ ∀ x ∈ d, x < 256) :
    readRecipient (encRecipient rc ++ rest) = some (rc, rest) := by
  cases rc with
  | none => rfl
  | some d =>
    obtain ⟨hl, hb⟩ := hrc d rfl
    show readRecipient (1 :: (d ++ rest)) = some (some d, rest)
    simp only [readRecipient]
    rw [if_neg (by norm_num), if_pos trivial, readN_encode d rest idLen hl hb]
    rfl

/-- An accepted recipient parse consumed exactly the recipient encoding,
and a present recipient id is a well-formed device id. -/
theorem readRecipient_spec {bs r : List Nat} {rc : Option (List Nat)}
    (h : readRecipient bs = some (rc, r)) :
    bs = encRecipient rc ++ r ∧ ∀ d, rc = some d → d.length = idLen ∧ ∀ x ∈ d, x < 256 := by
  cases bs with
  | nil => simp [readRecipient] at h
  | cons b r0 =>
    simp only [readRecipient] at h
    split at h
    · rename_i hb0
      subst hb0
      simp only [Option.some.injEq, Prod.mk.injEq] at h
      obtain ⟨h1, h2⟩ := h
      subst h1; subst h2
      exact ⟨rfl, by simp⟩
    · split at h
      · rename_i hb1
        subst hb1
        rcases Option.bind_eq_some.mp h with ⟨⟨d, r1⟩, hread, hsome⟩
        simp only [Option.some.injEq, Prod.mk.injEq] at hsome
        obtain ⟨h1, h2⟩ := hsome
        subst h1; subst h2
        obtain ⟨hsplit, hlen, hbytes⟩ := readN_spec hread
        subst hsplit
        exact ⟨rfl, fun d' hd' => by cases hd'; exact ⟨hlen, hbytes⟩⟩
      · exact absurd h (by simp)

/-- Parsing the common fields off their encoding yields them and the
tail. -/
theorem decodeCommon_encode (i t : Nat) (snd : List Nat) (rc : Option (List Nat))
    (rest : List Nat) (hi : i < 256 ^ intLen) (ht : t < 256 ^ intLen)
    (hsl : snd.length = idLen) (hsb : ∀ x ∈ snd, x < 256)
    (hrc : ∀ d, rc = some d → d.length = idLen ∧ ∀ x ∈ d, x < 256) :
    decodeCommon (toBE intLen i ++ (toBE intLen t ++ (snd ++ (encRecipient rc ++ rest)))) =
      some ((i, t, snd, rc), rest) := by
  unfold decodeCommon
  rw [readN_encode _ _ _ (length_toBE intLen i) (mem_toBE_lt intLen i), Option.some_bind]
  rw [readN_encode _ _ _ (length_toBE intLen t) (mem_toBE_lt intLen t), Option.some_bind]
  rw [readN_encode _ _ _ hsl hsb, Option.some_bind]
  rw [readRecipient_encode rc rest hrc, Option.some_bind]
  rw [fromBE_toBE hi, fromBE_toBE ht]

/-- An accepted parse of the common fields consumed exactly their
encoding, and the parsed fields are well-formed. -/
theorem decodeCommon_spec {bs r4 : List Nat} {i t : Nat} {s : List Nat}
    {rc : Option (List Nat)}
    (h : decodeCommon bs = some ((i, t, s, rc), r4)) :
    bs = toBE intLen i ++ (toBE intLen t ++ (s ++ (encRecipient rc ++ r4))) ∧
      i < 256 ^ intLen ∧ t < 256 ^ intLen ∧ s.length = idLen ∧ (∀ x ∈ s, x < 256) ∧
      ∀ d, rc = some d → d.length = idLen ∧ ∀ x ∈ d, x < 256 := by
  unfold decodeCommon at h
  rcases Option.bind_eq_some.mp h with ⟨⟨idC, r1⟩, hid, h⟩
  rcases Option.bind_eq_some.mp h with ⟨⟨tsC, r2⟩, hts, h⟩
  rcases Option.bind_eq_some.mp h with ⟨⟨snd, r3⟩, hsnd, h⟩
  rcases Option.bind_eq_some.mp h with ⟨⟨rcp, r4'⟩, hrcp, h⟩
  simp only [Option.some.injEq, Prod.mk.injEq] at h
  obtain ⟨⟨hi, ht, hs, hrc⟩, hr4⟩ := h
  subst hi; subst ht; subst hs; subst hrc; subst hr4
  obtain ⟨hid1, hid2, hid3⟩ := readN_spec hid
  obtain ⟨hts1, hts2, hts3⟩ := readN_spec hts
  obtain ⟨hsnd1, hsnd2, hsnd3⟩ := readN_spec hsnd
  obtain ⟨hrcp1, hrcp2⟩ := readRecipient_spec hrcp
  subst hid1; subst hts1; subst hsnd1; subst hrcp1
  refine ⟨?_, fromBE_lt idC hid3 |>.trans_le (by rw [hid2]),
    fromBE_lt tsC hts3 |>.trans_le (by rw [hts2]), hsnd2, hsnd3, hrcp2⟩
  rw [toBE_fromBE hid2 hid3, toBE_fromBE hts2 hts3]

/-- Round trip: decoding the encoding of a valid message yields the
message. -/
theorem decodeCore_encode {m : Message} (hv : m.valid = true) :
    decodeCore (encode m) = some m := by
  obtain ⟨i, t, snd, rc, body⟩ := m
  simp only [Message.valid, Bool.and_eq_true, decide_eq_true_eq, beq_iff_eq, bytesOk,
    List.all_eq_true] at hv
  obtain ⟨⟨⟨⟨⟨hi, ht⟩, hsl⟩, hsb⟩, hrc⟩, hbody⟩ := hv
  have hrc' : ∀ d, rc = some d → d.length = idLen ∧ ∀ x ∈ d, x < 256 := by
    intro d hd
    subst hd
    simp only [Bool.and_eq_true, beq_iff_eq, List.all_eq_true] at hrc
    exact ⟨hrc.1, fun x hx => by simpa using hrc.2 x hx⟩
  cases body with
  | text p =>
    simp only [Bool.and_eq_true, decide_eq_true_eq, List.all_eq_true] at hbody
    obtain ⟨⟨hpl, hpb⟩, hputf⟩ := hbody
    show decodeCore (0 :: (toBE intLen i ++ (toBE intLen t ++ (snd ++ (encRecipient rc ++
      (toBE intLen p.length ++ p)))))) = _
    simp only [decodeCore]
    rw [if_pos trivial]
    rw [decodeCommon_encode i t snd rc _ hi ht hsl (fun x hx => by simpa using hsb x hx) hrc',
      Option.some_bind]
    dsimp only
    rw [readN_encode _ _ _ (length_toBE intLen p.length) (mem_toBE_lt intLen p.length),
      Option.some_bind]
    dsimp only
    rw [fromBE_toBE hpl,
      readN_exact p p.length rfl (fun x hx => by simpa using hpb x hx), Option.some_bind]
    simp [hputf]
  | command op arg =>
    simp only [Bool.and_eq_true, decide_eq_true_eq, List.all_eq_true] at hbody
    obtain ⟨⟨hop, hal⟩, hab⟩ := hbody
    show decodeCore (1 :: (toBE intLen i ++ (toBE intLen t ++ (snd ++ (encRecipient rc ++
      (toBE intLen op ++ (toBE intLen arg.length ++ arg))))))) = _
    simp only [decodeCore]
    rw [if_neg (by norm_num), if_pos trivial]
    rw [decodeCommon_encode i t snd rc _ hi ht hsl (fun x hx => by simpa using hsb x hx) hrc',
      Option.some_bind]
    dsimp only
    rw [readN_encode _ _ _ (length_toBE intLen op) (mem_toBE_lt intLen op), Option.some_bind]
    dsimp only
    rw [readN_encode _ _ _ (length_toBE intLen arg.length) (mem_toBE_lt intLen arg.length),
      Option.some_bind]
    dsimp only
    rw [fromBE_toBE hal, readN_exact arg arg.length rfl (fun x hx => by simpa using hab x hx),
      Option.some_bind]
    rw [fromBE_toBE hop]
    simp

/-- Validity of a message follows from the bounds on its fields. -/
theorem message_valid_of (i t : Nat) (s : List Nat) (rc : Option (List Nat)) (b : MsgBody)
    (hi : i < 256 ^ intLen) (ht : t < 256 ^ intLen) (hsl : s.length = idLen)
    (hsb : ∀ x ∈ s, x < 256)
    (hrc : ∀ d, rc = some d → d.length = idLen ∧ ∀ x ∈ d, x < 256)
    (hb : match b with
      | .text p => p.length < 256 ^ intLen ∧ (∀ x ∈ p, x < 256) ∧ utf8Valid p = true
      | .command op arg => op < 256 ^ intLen ∧ arg.length < 256 ^ intLen ∧ ∀ x ∈ arg, x < 256) :
    (Message.mk i t s rc b).valid = true := by
  simp only [Message.valid, Bool.and_eq_true, decide_eq_true_eq, beq_iff_eq, bytesOk,
    List.all_eq_true, decide_eq_true_eq]
  refine ⟨⟨⟨⟨⟨hi, ht⟩, hsl⟩, fun x hx => by simpa using hsb x hx⟩, ?_⟩, ?_⟩
  · cases rc with
    | none => rfl
    | some d =>
      obtain ⟨hdl, hdb⟩ := hrc d rfl
      simp only [Bool.and_eq_true, beq_iff_eq, List.all_eq_true, decide_eq_true_eq]
      exact ⟨hdl, fun x hx => hdb x hx⟩
  · cases b with
    | text p =>
      obtain ⟨h1, h2, h3⟩ := hb
      simp only [Bool.and_eq_true, decide_eq_true_eq, List.all_eq_true, decide_eq_true_eq]
      exact ⟨⟨h1, fun x hx => h2 x hx⟩, h3⟩
    | command op arg =>
      obtain ⟨h1, h2, h3⟩ := hb
      simp only [Bool.and_eq_true, decide_eq_true_eq, List.all_eq_true, decide_eq_true_eq]
      exact ⟨⟨h1, h2⟩, fun x hx => h3 x hx⟩

/-- Canonicality: an accepted decode consumed exactly the encoding of a
structurally valid message. -/
theorem decodeCore_spec {bs : List Nat} {m : Message} (h : decodeCore bs = some m) :
    bs = encode m ∧ m.valid = true := by
  cases bs with
  | nil => simp [decodeCore] at h
  | cons tag r0 =>
    simp only [decodeCore] at h
    split at h
    · rename_i htag
      subst htag
      rcases Option.bind_eq_some.mp h with ⟨⟨⟨i, t, s, rc⟩, r4⟩, hcm, h1⟩
      clear h
      dsimp only at h1
      rcases Option.bind_eq_some.mp h1 with ⟨⟨lenC, r5⟩, hlen, h2⟩
      clear h1
      dsimp only at h2
      rcases Option.bind_eq_some.mp h2 with ⟨⟨pay, r6⟩, hpay, h⟩
      clear h2
      dsimp only at h
      obtain ⟨hbs, hi, ht, hsl, hsb, hrc⟩ := decodeCommon_spec hcm
      subst hbs
      split at h
      · rename_i hguard
        simp only [Option.some.injEq] at h
        subst h
        simp only [Bool.and_eq_true, List.isEmpty_iff] at hguard
        obtain ⟨hutf, hr6⟩ := hguard
        subst hr6
        obtain ⟨hl1, hl2, hl3⟩ := readN_spec hlen
        obtain ⟨hp1, hp2, hp3⟩ := readN_spec hpay
        subst hl1; subst hp1
        constructor
        · simp only [encode, bodyTag, encBodyFields]
          rw [hp2, toBE_fromBE hl2 hl3]
          simp
        · refine message_valid_of i t s rc (.text pay) hi ht hsl hsb hrc ⟨?_, hp3, hutf⟩
          rw [hp2, ← hl2]
          exact fromBE_lt lenC hl3
      · exact absurd h (by simp)
    · split at h
      · rename_i htag0 htag
        subst htag
        rcases Option.bind_eq_some.mp h with ⟨⟨⟨i, t, s, rc⟩, r4⟩, hcm, h1⟩
        clear h
        dsimp only at h1
        rcases Option.bind_eq_some.mp h1 with ⟨⟨opC, r5⟩, hop, h2⟩
        clear h1
        dsimp only at h2
        rcases Option.bind_eq_some.mp h2 with ⟨⟨lenC, r6⟩, hlen, h3⟩
        clear h2
        dsimp only at h3
        rcases Option.bind_eq_some.mp h3 with ⟨⟨arg, r7⟩, harg, h⟩
        clear h3
        dsimp only at h
        obtain ⟨hbs, hi, ht, hsl, hsb, hrc⟩ := decodeCommon_spec hcm
        subst hbs
        split at h
        · rename_i hguard
          simp only [Option.some.injEq] at h
          subst h
          rw [List.isEmpty_iff] at hguard
          subst hguard
          obtain ⟨ho1, ho2, ho3⟩ := readN_spec hop
          obtain ⟨hl1, hl2, hl3⟩ := readN_spec hlen
          obtain ⟨ha1, ha2, ha3⟩ := readN_spec harg
          subst ho1; subst hl1; subst ha1
          constructor
          · simp only [encode, bodyTag, encBodyFields]
            rw [ha2, toBE_fromBE hl2 hl3, toBE_fromBE ho2 ho3]
            simp
          · refine message_valid_of i t s rc (.command (fromBE opC) arg) hi ht hsl hsb hrc
              ⟨?_, ?_, ha3⟩
            · rw [← ho2]
              exact fromBE_lt opC ho3
            · rw [ha2, ← hl2]
              exact fromBE_lt lenC hl3
        · exact absurd h (by simp)
      · exact absurd h (by simp)

/-- Claim C1: decoding the encoding of any valid message yields the
message back (encode is a deterministic function, so encoding is
deterministic); every successful decode is of a valid message and
consumed exactly its encoding, so decode fails precisely on input that is
not the encoding of a valid message; and the only failure is
`CodecError.Malformed`. -/
theorem codec_roundtrip_exact :
    (∀ m : Message, m.valid = true → decode (encode m) = Except.ok m) ∧
    (∀ (bs : List Nat) (m : Message), decode bs = Except.ok m →
        m.valid = true ∧ encode m = bs) ∧
    (∀ bs : List Nat, (∀ m : Message, decode bs ≠ Except.ok m) →
        decode bs = Except.error CodecError.Malformed) := by
  refine ⟨fun m hv => ?_, fun bs m h => ?_, fun bs h => ?_⟩
  · unfold decode
    rw [decodeCore_encode hv]
  · unfold decode at h
    cases hd : decodeCore bs with
    | none => rw [hd] at h; exact absurd h (by simp)
    | some m' =>
      rw [hd] at h
      simp only [Except.ok.injEq] at h
      subst h
      obtain ⟨h1, h2⟩ := decodeCore_spec hd
      exact ⟨h2, h1.symm⟩
  · unfold decode
    cases hd : decodeCore bs with
    | none => rfl
    | some m' =>
      refine absurd ?_ (h m')
      unfold decode
      rw [hd]

/-- Claim C1 witness: a concrete valid text message round-trips through
the codec. -/
theorem codec_roundtrip_exact_witness :
    (Message.mk 1 1700000000 [1, 2, 3, 4] (some [9, 8, 7, 6])
        (MsgBody.text [104, 105])).valid = true ∧
    decode (encode (Message.mk 1 1700000000 [1, 2, 3, 4] (some [9, 8, 7, 6])
        (MsgBody.text [104, 105]))) =
      Except.ok (Message.mk 1 1700000000 [1, 2, 3, 4] (some [9, 8, 7, 6])
        (MsgBody.text [104, 105])) :=
  ⟨by decide, codec_roundtrip_exact.1 _ (by decide)⟩

end WifiMesh
